import Mathlib

/-!
Verification development for the PSX1G1B1C1D collection-verification scripts
(src/verification/scripts/FullReport.py and full-verification.py).

The Python code is shallowly embedded: strings are Lean `String` (worked on
through their `List Char` data), Python sets are modelled by lists up to
membership (and by `Finset String` for the set-algebra of the reconciliation),
Python dicts by association lists or by functions `String → Option _`, and the
filesystem by a record of directory listings (a missing directory is the empty
listing, matching the scripts which treat a non-existing directory as
contributing no files).
-/

namespace PSX

/-! ### Character classes used by the regexes and by str.strip

`isPySpace` models the ASCII fragment of Python whitespace (the character
class of `\s` and of `str.strip()` with no argument). -/

def isPySpace (c : Char) : Bool :=
  c = ' ' || c = '\t' || c = '\n' || c = '\r' || c.toNat = 11 || c.toNat = 12

def isRc (c : Char) : Bool := c = 'R' || c = 'r'

def isEc (c : Char) : Bool := c = 'E' || c = 'e'

def isVc (c : Char) : Bool := c = 'V' || c = 'v'

/-- Numeric value of a run of decimal digits, as computed by Python `int()`
on the captured group. -/
def digitsToNat (ds : List Char) : Nat :=
  ds.foldl (fun a c => a * 10 + (c.toNat - 48)) 0

/-! ### The regex `\(Rev (\d+)\)` with `re.IGNORECASE`

`parenMatchAt s` attempts the regex match at the start of `s`: a literal
left parenthesis, the letters R e v (case insensitive), a literal space, a
non-empty maximal run of digits, and a literal right parenthesis (the regex
can only match with the maximal digit run, since after backtracking a digit
would have to equal the closing parenthesis).  It returns the captured
revision number and the remainder of the input after the match. -/
def parenMatchAt : List Char → Option (Nat × List Char)
  | c0 :: c1 :: c2 :: c3 :: c4 :: rest =>
    if c0 == '(' && isRc c1 && isEc c2 && isVc c3 && c4 == ' ' then
      if (rest.takeWhile Char.isDigit).isEmpty then none
      else
        match rest.dropWhile Char.isDigit with
        | r0 :: rest'' =>
          if r0 == ')' then some (digitsToNat (rest.takeWhile Char.isDigit), rest'')
          else none
        | [] => none
    else none
  | _ => none

/-- `re.search(r'\(Rev (\d+)\)', name, re.IGNORECASE)`: the captured group of
the leftmost match, if any. -/
def searchRev : List Char → Option Nat
  | [] => none
  | c :: cs =>
    match parenMatchAt (c :: cs) with
    | some (r, _) => some r
    | none => searchRev cs

/-- One attempted match of `\s*\(Rev \d+\)` at the start of the input:
a maximal run of whitespace followed by a `parenMatchAt` match (with fewer
whitespace characters consumed, the next character is again whitespace and
not a parenthesis, so only the maximal run can succeed).  Returns the
remainder after the match. -/
def subMatchAt (s : List Char) : Option (List Char) :=
  (parenMatchAt (s.dropWhile isPySpace)).map Prod.snd

/-- Fuel-driven worker for `re.sub(r'\s*\(Rev \d+\)', '', name)`: scan left to
right; at each position either remove a match and continue after it, or keep
the character.  The fuel is an upper bound on the number of scan steps and is
always instantiated with the length of the input. -/
def subRevAllAux : Nat → List Char → List Char
  | _, [] => []
  | 0, s => s
  | Nat.succ f, c :: cs =>
    match subMatchAt (c :: cs) with
    | some rest => subRevAllAux f rest
    | none => c :: subRevAllAux f cs

/-- `re.sub(r'\s*\(Rev \d+\)', '', name, flags=re.IGNORECASE)`: removes every
non-overlapping occurrence, scanning left to right without rescanning the
replaced text. -/
def subRevAll (s : List Char) : List Char := subRevAllAux s.length s

/-! ### str.strip / str.lstrip / str.rstrip -/

def lstripL (s : List Char) : List Char := s.dropWhile isPySpace

def rstripL (s : List Char) : List Char := (s.reverse.dropWhile isPySpace).reverse

def stripL (s : List Char) : List Char := lstripL (rstripL s)

def pyStrip (s : String) : String := String.mk (stripL s.data)

def pyLstrip (s : String) : String := String.mk (lstripL s.data)

def pyRstrip (s : String) : String := String.mk (rstripL s.data)

/-! ### extract_revision (FullReport.py lines 56-66) -/

/-- `extract_revision` on the character-list level: search for the first
`(Rev N)` marker; if found, return the name with all `\s*\(Rev \d+\)`
occurrences removed and stripped, together with the revision number;
otherwise return the stripped name and no revision. -/
def extractRevL (s : List Char) : List Char × Option Nat :=
  match searchRev s with
  | some r => (stripL (subRevAll s), some r)
  | none => (stripL s, none)

/-- `extract_revision(name)` from FullReport.py (identical in
full-verification.py). -/
def extract_revision (s : String) : String × Option Nat :=
  (String.mk (extractRevL s.data).1, (extractRevL s.data).2)

/-! ### Decimal rendering of a revision number

Models the decimal formatting used by Python f-strings such as
`f"{base} (Rev {max_rev})"` and by the reassembly in the spec property. -/

def digitChar (d : Nat) : Char :=
  match d with
  | 0 => '0' | 1 => '1' | 2 => '2' | 3 => '3' | 4 => '4'
  | 5 => '5' | 6 => '6' | 7 => '7' | 8 => '8' | _ => '9'

def natDigitsAux : Nat → Nat → List Char
  | 0, _ => []
  | Nat.succ f, n =>
    if n < 10 then [digitChar n]
    else natDigitsAux f (n / 10) ++ [digitChar (n % 10)]

/-- Standard decimal digit string of a natural number. -/
def natDigits (n : Nat) : List Char := natDigitsAux (n + 1) n

/-- Decimal rendering as a `String` (the model of `str(n)` inside f-strings). -/
def natStr (n : Nat) : String := String.mk (natDigits n)

/-! ### html.unescape

Models Python `html.unescape` restricted to the five standard XML entities;
the source only relies on entity decoding of catalog name attributes (its
comment cites `&amp; -> &`). -/

def htmlUnescapeL : List Char → List Char
  | [] => []
  | '&' :: 'a' :: 'm' :: 'p' :: ';' :: rest => '&' :: htmlUnescapeL rest
  | '&' :: 'l' :: 't' :: ';' :: rest => '<' :: htmlUnescapeL rest
  | '&' :: 'g' :: 't' :: ';' :: rest => '>' :: htmlUnescapeL rest
  | '&' :: 'q' :: 'u' :: 'o' :: 't' :: ';' :: rest => '"' :: htmlUnescapeL rest
  | '&' :: 'a' :: 'p' :: 'o' :: 's' :: ';' :: rest => '\'' :: htmlUnescapeL rest
  | c :: rest => c :: htmlUnescapeL rest

def htmlUnescape (s : String) : String := String.mk (htmlUnescapeL s.data)

/-! ### The catalog document (.dat file)

`ET.parse` of the .dat file is external; its outcome is either a
well-formedness failure (`xml.etree.ElementTree.ParseError`) or a parsed
document, which for the needs of the scripts is the list of `game` nodes,
each with an optional `name` attribute. -/

inductive DatParseResult where
  | parseError
  | ok (games : List (Option String))
deriving DecidableEq

/-- The catalog names obtained from a well-formed document: nodes without a
name attribute are skipped, names are entity-decoded.  Python inserts into a
set; the list models that set up to membership. -/
def catalogNames (games : List (Option String)) : List String :=
  (games.filterMap id).map htmlUnescape

/-- `parse_dat_file(dat_path)` (FullReport.py lines 128-156): on a well-formed
document it returns the decoded game names; the `except ET.ParseError` branch
prints an error and returns the empty set. -/
def parse_dat_file : DatParseResult → List String
  | DatParseResult.parseError => []
  | DatParseResult.ok games => catalogNames games

/-- The caller-side guard in `main` (FullReport.py line 754):
`if not dat_names: ... return` — the run proceeds only on a non-empty set. -/
def mainProceedsWithDat (datNames : List String) : Bool := !datNames.isEmpty

/-! ### parse_dat_file_for_revisions (FullReport.py lines 69-106) -/

/-- One iteration of the revision-accumulation loop, on an entity-decoded
name.  The Python dict is a `defaultdict(int)`, so reading
`base_to_max_rev[base_name]` inserts `0` for an absent key; the dictionary is
modelled as a function `String → Option Nat`. -/
def revStep (d : String → Option Nat) (gameName : String) : String → Option Nat :=
  let base := (extract_revision gameName).1
  match (extract_revision gameName).2 with
  | some r =>
    let cur := (d base).getD 0
    if cur < r then fun k => if k = base then some r else d k
    else fun k => if k = base then some cur else d k
  | none =>
    match d base with
    | none => fun k => if k = base then some 0 else d k
    | some _ => d

/-- `parse_dat_file_for_revisions(dat_path)`: base name to highest revision;
the `except` branches return the empty dict. -/
def parse_dat_file_for_revisions : DatParseResult → (String → Option Nat)
  | DatParseResult.parseError => fun _ => none
  | DatParseResult.ok games => (catalogNames games).foldl revStep (fun _ => none)

/-! ### get_latest_revision_name (FullReport.py lines 109-125) -/

def get_latest_revision_name (baseName : String) (maxRev : Nat)
    (redumpNames : List String) : Option String :=
  if maxRev = 0 then
    if redumpNames.contains baseName then some baseName else none
  else
    let revName := baseName ++ " (Rev " ++ natStr maxRev ++ ")"
    if redumpNames.contains revName then some revName else none

/-! ### The asset directory tree

Each field is the list of stems of the `*.png` files in one configured
directory of `COLLECTION_DIRS`; a directory that does not exist contributes
the empty listing, exactly as the scripts skip non-existing directories. -/

structure FS where
  box2d : List String
  box2dLq : List String
  box2dMissing : List String
  box3d : List String
  box3dLq : List String
  box3dMissing : List String
  disc : List String
  discLq : List String
  discMissing : List String
  pspGenerated : List String
  pspBespoke : List String

/-- The directories of `COLLECTION_DIRS` in iteration order. -/
def allDirs (fs : FS) : List (List String) :=
  [fs.box2d, fs.box2dLq, fs.box2dMissing,
   fs.box3d, fs.box3dLq, fs.box3dMissing,
   fs.disc, fs.discLq, fs.discMissing,
   fs.pspGenerated, fs.pspBespoke]

def isPrefixL : List Char → List Char → Bool
  | [], _ => true
  | _ :: _, [] => false
  | p :: ps, c :: cs => p = c && isPrefixL ps cs

def isSubstrL (pat : List Char) : List Char → Bool
  | [] => isPrefixL pat []
  | c :: cs => isPrefixL pat (c :: cs) || isSubstrL pat cs

/-- `" alt" in stem` — Python substring containment. -/
def containsAlt (s : String) : Bool := isSubstrL " alt".data s.data

/-- `collect_collection_filenames()` (FullReport.py lines 159-181): all stems
across every configured directory, skipping stems containing `" alt"`.
Python inserts into a set; the list models that set up to membership. -/
def collect_collection_filenames (fs : FS) : List String :=
  (allDirs fs).foldl (fun acc dir => acc ++ dir.filter (fun s => !containsAlt s)) []

/-! ### check_image_exists (FullReport.py lines 203-241) -/

/-- The variant directories with their location labels for one category, in
the priority order of the source; an unknown category has none. -/
def categoryDirs (fs : FS) (category : String) : List (List String × String) :=
  if category = "2dbox" then
    [(fs.box2d, "normal"), (fs.box2dLq, "lq"), (fs.box2dMissing, "missing")]
  else if category = "3dbox" then
    [(fs.box3d, "normal"), (fs.box3dLq, "lq"), (fs.box3dMissing, "missing")]
  else if category = "disc" then
    [(fs.disc, "normal"), (fs.discLq, "lq"), (fs.discMissing, "missing")]
  else if category = "psp-icon0" then
    [(fs.pspGenerated, "generated"), (fs.pspBespoke, "bespoke")]
  else []

def findLoc (gameName : String) : List (List String × String) → Option String
  | [] => none
  | (dir, loc) :: rest =>
    if dir.contains gameName then some loc else findLoc gameName rest

/-- `check_image_exists(game_name, category)`: first variant directory of the
category containing the name; `(False, None)` when none does or the category
is unknown. -/
def check_image_exists (fs : FS) (gameName category : String) : Bool × Option String :=
  match findLoc gameName (categoryDirs fs category) with
  | some loc => (true, some loc)
  | none => (false, none)

/-! ### check_collection_completeness (FullReport.py lines 244-272) -/

def CATEGORIES : List String := ["2dbox", "3dbox", "disc", "psp-icon0"]

/-- The per-game loop body: the categories appended to `missing_cats`
(`if not exists`) and to `missing_only_cats` (`elif location == "missing"`).
The loop appends in category order, which is the filter of the category
list by the respective branch condition. -/
def checkGameCats (fs : FS) (gameName : String) : List String × List String :=
  (CATEGORIES.filter (fun c => !(check_image_exists fs gameName c).1),
   CATEGORIES.filter (fun c =>
     (check_image_exists fs gameName c).1 &&
       ((check_image_exists fs gameName c).2 == some "missing")))

/-- One iteration of the completeness loop: record the per-game lists in the
two result dicts when they are non-empty (`if missing_cats: ...`). -/
def completenessStep (fs : FS)
    (acc : (String → Option (List String)) × (String → Option (List String)))
    (n : String) : (String → Option (List String)) × (String → Option (List String)) :=
  let mc := (checkGameCats fs n).1
  let pc := (checkGameCats fs n).2
  ((if mc = [] then acc.1 else fun k => if k = n then some mc else acc.1 k),
   (if pc = [] then acc.2 else fun k => if k = n then some pc else acc.2 k))

/-- `check_collection_completeness(collection_names)`: the two result dicts
`missing_images` and `missing_only_games`, each holding a game name exactly
when its category list is non-empty. -/
def check_collection_completeness (fs : FS) (names : List String) :
    (String → Option (List String)) × (String → Option (List String)) :=
  names.foldl (completenessStep fs) (fun _ => none, fun _ => none)

/-! ### check_psp_icon0_sync (FullReport.py lines 335-360) -/

/-- The files of the two psp-icon0 directories as (directory label, stem)
pairs, in scan order. -/
def pspFiles (fs : FS) : List (String × String) :=
  fs.pspGenerated.map (fun s => ("psp-icon0-generated", s)) ++
    fs.pspBespoke.map (fun s => ("psp-icon0-bespoke", s))

/-- `check_psp_icon0_sync(collection_names)`: the psp-icon0 files whose stem
is not a collection name. -/
def check_psp_icon0_sync (fs : FS) (collectionNames : List String) :
    List (String × String) :=
  (pspFiles fs).filter (fun f => !(collectionNames.contains f.2))

/-! ### parse_filter_report (FullReport.py lines 635-721) -/

structure FilterState where
  currentSection : Option String
  currentParent : Option String
  removed : List (String × String)
deriving DecidableEq

/-- Python dict assignment `d[k] = v`: overwrite in place if the key exists,
otherwise append (insertion order preserved). -/
def dictSet (d : List (String × String)) (k v : String) : List (String × String) :=
  if d.any (fun p => p.1 == k) then
    d.map (fun p => if p.1 == k then (k, v) else p)
  else d ++ [(k, v)]

/-- The nine exact section-header lines and the section state each selects. -/
def sectionHeader (line : String) : Option String :=
  if line = "TITLES WITH CLONES" then some "Clone"
  else if line = "APPLICATION REMOVES" then some "Application"
  else if line = "AUDIO REMOVES" then some "Audio"
  else if line = "COVERDISC REMOVES" then some "Coverdisc"
  else if line = "DEMO, KIOSK, AND SAMPLE REMOVES" then some "Demo/Kiosk/Sample"
  else if line = "EDUCATIONAL REMOVES" then some "Educational"
  else if line = "UNLICENSED REMOVES" then some "Unlicensed"
  else if line = "VIDEO REMOVES" then some "Video"
  else if line = "LANGUAGE REMOVES" then some "Language"
  else none

def strStartsWith (s pre : String) : Bool := isPrefixL pre.data s.data

def strDrop (s : String) (n : Nat) : String := String.mk (s.data.drop n)

/-- Blank lines, separator lines and the two preamble lines, skipped in all
states (checked after the header comparison, as in the source). -/
def isSkippedLine (line : String) : Bool :=
  (line = "") || strStartsWith line "=" || strStartsWith line "*" ||
    strStartsWith line "SECTIONS" || strStartsWith line "This file"

/-- Python truthiness of `current_parent` (`None` and `""` are falsy). -/
def parentTruthy : Option String → Bool
  | none => false
  | some p => !(p == "")

/-- One line of the parse loop of `parse_filter_report`. -/
def parseLine (st : FilterState) (raw : String) : FilterState :=
  let line := pyRstrip raw
  match sectionHeader line with
  | some sec => { st with currentSection := some sec, currentParent := none }
  | none =>
    if isSkippedLine line then st
    else
      let stripped := pyLstrip line
      if strStartsWith stripped "+ " then
        if st.currentSection == some "Clone" then
          { st with currentParent := some (pyStrip (strDrop stripped 2)) }
        else st
      else if strStartsWith stripped "- " then
        let gameName := pyStrip (strDrop stripped 2)
        let tag :=
          if st.currentSection == some "Clone" && parentTruthy st.currentParent then
            "Superior version: '" ++ (st.currentParent.getD "") ++ "'"
          else
            match st.currentSection with
            | some sec => sec
            | none => "Removed"
        { st with removed := dictSet st.removed gameName tag }
      else st

/-- `parse_filter_report(txt_path)`: the removed-title dictionary produced by
folding the parse loop over the report lines. -/
def parse_filter_report (lines : List String) : List (String × String) :=
  (lines.foldl parseLine ⟨none, none, []⟩).removed

/-- The removal-tag rule as stated by the spec for a removed-entry line:
superseded-by the remembered parent in the Clone section, the section reason
when a section is set, and the unspecified tag (`"Removed"`) otherwise. -/
def removalTag (sec par : Option String) : String :=
  if sec == some "Clone" && parentTruthy par then
    "Superior version: '" ++ (par.getD "") ++ "'"
  else
    match sec with
    | some s => s
    | none => "Removed"

/-! ### The reconciliation set algebra (FullReport.py lines 766-775) -/

def catalog_only (datNames collectionNames : Finset String) : Finset String :=
  datNames \ collectionNames

def inventory_only (datNames collectionNames : Finset String) : Finset String :=
  collectionNames \ datNames

def in_both (datNames collectionNames : Finset String) : Finset String :=
  collectionNames ∩ datNames

/-! ### Specification-side derived notions -/

/-- The base title of a catalog name. -/
def baseOf (n : String) : String := (extract_revision n).1

/-- The observed revision of a catalog name (no marker counts as 0). -/
def revOf (n : String) : Nat := ((extract_revision n).2).getD 0

/-- Maximum revision observed among the catalog entries sharing a base. -/
def maxRevOf (b : String) (names : List String) : Nat :=
  (names.filter (fun n => baseOf n == b)).foldr (fun n m => max (revOf n) m) 0

/-- The character suffix appended by the reassembly `"{base} (Rev {rev})"`
for a digit run `ds`. -/
def revSuffix (ds : List Char) : List Char :=
  ' ' :: '(' :: 'R' :: 'e' :: 'v' :: ' ' :: (ds ++ [')'])

/-- The value of the regex match attempted at position `i` of a name. -/
def matchValAt (s : List Char) (i : Nat) : Option Nat :=
  (parenMatchAt (s.drop i)).map Prod.fst

/-! ### Concrete directory trees used as witnesses -/

/-- One icon-only stem in the generated psp-icon0 directory and nothing
anywhere else. -/
def fsIconOnly : FS := ⟨[], [], [], [], [], [], [], [], [], ["X"], []⟩

/-- An alt stem and a plain stem in the 2dbox directory. -/
def fsAltExample : FS := ⟨["Game alt", "Game"], [], [], [], [], [], [], [], [], [], []⟩

/-- The stem `G` only as a blank template in the 2dbox-missing directory. -/
def fsMissingOnly : FS := ⟨[], [], ["G"], [], [], [], [], [], [], [], []⟩

/-! ## Helper lemmas -/

lemma contains_iff_mem (l : List String) (a : String) : l.contains a = true ↔ a ∈ l :=
  List.elem_iff

/-- Membership in the directory-accumulating fold of
`collect_collection_filenames`. -/
lemma mem_foldl_append_filter (p : String → Bool) :
    ∀ (L : List (List String)) (acc : List String) (x : String),
      x ∈ L.foldl (fun a d => a ++ d.filter p) acc ↔
        x ∈ acc ∨ ∃ d ∈ L, x ∈ d.filter p := by
  intro L
  induction L with
  | nil => intro acc x; simp
  | cons d ds ih =>
    intro acc x
    simp only [List.foldl_cons, ih, List.mem_append, List.mem_cons]
    constructor
    · rintro (⟨hx | hx⟩ | ⟨e, he, hx⟩)
      · exact Or.inl hx
      · exact Or.inr ⟨d, Or.inl rfl, hx⟩
      · exact Or.inr ⟨e, Or.inr he, hx⟩
    · rintro (hx | ⟨e, (rfl | he), hx⟩)
      · exact Or.inl (Or.inl hx)
      · exact Or.inl (Or.inr hx)
      · exact Or.inr ⟨e, he, hx⟩

/-- Characterization of the inventory set: a stem is collected exactly when
some configured directory holds it and it does not contain `" alt"`. -/
lemma mem_collect_iff (fs : FS) (x : String) :
    x ∈ collect_collection_filenames fs ↔
      (∃ d ∈ allDirs fs, x ∈ d) ∧ containsAlt x = false := by
  unfold collect_collection_filenames
  rw [mem_foldl_append_filter]
  simp only [List.mem_filter, List.not_mem_nil, false_or, Bool.not_eq_true']
  constructor
  · rintro ⟨d, hd, hx, halt⟩
    exact ⟨⟨d, hd, hx⟩, halt⟩
  · rintro ⟨⟨d, hd, hx⟩, halt⟩
    exact ⟨d, hd, hx, halt⟩

/-- Values stored by the `check_collection_completeness` fold are the
per-game category lists. -/
lemma completeness_fold_lookup (fs : FS) :
    ∀ (names : List String)
      (acc : (String → Option (List String)) × (String → Option (List String))),
      (∀ n l, acc.1 n = some l → l = (checkGameCats fs n).1) →
      (∀ n l, acc.2 n = some l → l = (checkGameCats fs n).2) →
      (∀ n l, (names.foldl (completenessStep fs) acc).1 n = some l →
          l = (checkGameCats fs n).1) ∧
      (∀ n l, (names.foldl (completenessStep fs) acc).2 n = some l →
          l = (checkGameCats fs n).2) := by
  intro names
  induction names with
  | nil => intro acc h1 h2; exact ⟨h1, h2⟩
  | cons m ms ih =>
    intro acc h1 h2
    simp only [List.foldl_cons]
    apply ih
    · intro n l hl
      unfold completenessStep at hl
      dsimp only at hl
      by_cases hmc : (checkGameCats fs m).1 = []
      · rw [if_pos hmc] at hl; exact h1 n l hl
      · rw [if_neg hmc] at hl
        by_cases hn : n = m
        · subst hn; rw [if_pos rfl] at hl
          exact (Option.some_inj.mp hl).symm
        · rw [if_neg hn] at hl; exact h1 n l hl
    · intro n l hl
      unfold completenessStep at hl
      dsimp only at hl
      by_cases hpc : (checkGameCats fs m).2 = []
      · rw [if_pos hpc] at hl; exact h2 n l hl
      · rw [if_neg hpc] at hl
        by_cases hn : n = m
        · subst hn; rw [if_pos rfl] at hl
          exact (Option.some_inj.mp hl).symm
        · rw [if_neg hn] at hl; exact h2 n l hl

/-! ### Declarative view of the revision accumulation -/

lemma revStep_apply (d : String → Option Nat) (gn b : String) :
    revStep d gn b =
      if baseOf gn = b then some (max ((d b).getD 0) (revOf gn)) else d b := by
  unfold revStep baseOf revOf
  cases h : (extract_revision gn).2 with
  | none =>
    cases hd : d (extract_revision gn).1 with
    | none =>
      by_cases hb : (extract_revision gn).1 = b
      · subst hb; simp [hd]
      · simp [Ne.symm hb, hb]
    | some c =>
      by_cases hb : (extract_revision gn).1 = b
      · subst hb; simp [hd]
      · simp [hb]
  | some r =>
    dsimp only
    by_cases hcur : (d (extract_revision gn).1).getD 0 < r
    · rw [if_pos hcur]
      by_cases hb : (extract_revision gn).1 = b
      · subst hb
        simp [Nat.max_eq_right (Nat.le_of_lt hcur)]
      · simp [Ne.symm hb, hb]
    · rw [if_neg hcur]
      by_cases hb : (extract_revision gn).1 = b
      · subst hb
        simp [Nat.max_eq_left (Nat.le_of_not_lt hcur)]
      · simp [Ne.symm hb, hb]

lemma maxRevOf_nil (b : String) : maxRevOf b [] = 0 := rfl

lemma maxRevOf_cons (b : String) (n : String) (ns : List String) :
    maxRevOf b (n :: ns) =
      if baseOf n = b then max (revOf n) (maxRevOf b ns) else maxRevOf b ns := by
  unfold maxRevOf
  by_cases hb : baseOf n = b
  · simp [List.filter_cons, hb]
  · simp [List.filter_cons, hb]

lemma maxRevOf_of_not_any (b : String) (ns : List String)
    (h : ns.any (fun n => baseOf n == b) = false) : maxRevOf b ns = 0 := by
  unfold maxRevOf
  have hnil : ns.filter (fun n => baseOf n == b) = [] := by
    rw [List.filter_eq_nil_iff]
    intro a ha
    have := List.any_eq_false.mp h a ha
    simpa using this
  rw [hnil, List.foldr_nil]

lemma revFold_apply :
    ∀ (names : List String) (d : String → Option Nat) (b : String),
      (names.foldl revStep d) b =
        if names.any (fun n => baseOf n == b)
        then some (max ((d b).getD 0) (maxRevOf b names))
        else d b := by
  intro names
  induction names with
  | nil => intro d b; simp
  | cons n ns ih =>
    intro d b
    simp only [List.foldl_cons, List.any_cons]
    rw [ih, revStep_apply, maxRevOf_cons]
    by_cases hb : baseOf n = b
    · have hbeq : (baseOf n == b) = true := by simpa using hb
      simp only [hbeq, Bool.true_or, if_pos hb]
      by_cases hany : ns.any (fun n => baseOf n == b) = true
      · simp only [hany, if_true, Option.getD_some]
        rw [Nat.max_assoc]
      · have hany' : ns.any (fun n => baseOf n == b) = false := by
          simpa using hany
        simp only [hany']
        rw [maxRevOf_of_not_any b ns hany']
        simp
    · have hbeq : (baseOf n == b) = false := by simpa using hb
      simp only [hbeq, Bool.false_or, if_neg hb]

/-- Case normal form of `get_latest_revision_name`. -/
lemma get_latest_cases (base : String) (maxRev : Nat) (names : List String) :
    get_latest_revision_name base maxRev names =
      if names.contains
          (if maxRev = 0 then base else base ++ " (Rev " ++ natStr maxRev ++ ")")
      then some (if maxRev = 0 then base else base ++ " (Rev " ++ natStr maxRev ++ ")")
      else none := by
  unfold get_latest_revision_name
  by_cases h0 : maxRev = 0 <;> simp [h0]

lemma contains_test (names : List String) (t : String) :
    ((if names.contains t then some t else none) = some t ↔ t ∈ names) ∧
    ((if names.contains t then some t else none) = none ↔ t ∉ names) := by
  by_cases hm : names.contains t = true
  · have := (contains_iff_mem _ _).mp hm
    simp [hm, this]
  · have hm' : names.contains t = false := by simpa using hm
    have hnm : t ∉ names := fun hmem => hm ((contains_iff_mem _ _).mpr hmem)
    simp [hm', hnm]

/-! ### Decimal rendering lemmas -/

lemma digitChar_isDigit (d : Nat) : (digitChar d).isDigit = true := by
  unfold digitChar
  rcases d with _ | _ | _ | _ | _ | _ | _ | _ | _ | d <;> rfl

lemma digitChar_val (d : Nat) (h : d < 10) : (digitChar d).toNat - 48 = d := by
  interval_cases d <;> rfl

lemma digitsToNat_append_singleton (xs : List Char) (c : Char) :
    digitsToNat (xs ++ [c]) = digitsToNat xs * 10 + (c.toNat - 48) := by
  unfold digitsToNat
  rw [List.foldl_append]
  rfl

lemma natDigitsAux_spec :
    ∀ (f n : Nat), n < f →
      natDigitsAux f n ≠ [] ∧ (∀ c ∈ natDigitsAux f n, c.isDigit = true) ∧
        digitsToNat (natDigitsAux f n) = n := by
  intro f
  induction f with
  | zero => intro n hn; omega
  | succ f ih =>
    intro n hn
    by_cases h10 : n < 10
    · unfold natDigitsAux
      rw [if_pos h10]
      refine ⟨by simp, ?_, ?_⟩
      · intro c hc
        rw [List.mem_singleton.mp hc]
        exact digitChar_isDigit n
      · show digitsToNat ([] ++ [digitChar n]) = n
        rw [digitsToNat_append_singleton, digitChar_val n h10]
        show 0 * 10 + n = n
        omega
    · unfold natDigitsAux
      rw [if_neg h10]
      have hdiv : n / 10 < f := by omega
      obtain ⟨hne, hdig, hval⟩ := ih (n / 10) hdiv
      refine ⟨by simp [hne], ?_, ?_⟩
      · intro c hc
        rcases List.mem_append.mp hc with hc | hc
        · exact hdig c hc
        · rw [List.mem_singleton.mp hc]
          exact digitChar_isDigit (n % 10)
      · rw [digitsToNat_append_singleton, hval, digitChar_val (n % 10) (Nat.mod_lt n (by omega))]
        omega

lemma natDigits_ne_nil (n : Nat) : natDigits n ≠ [] :=
  (natDigitsAux_spec (n + 1) n (Nat.lt_succ_self n)).1

lemma natDigits_digits (n : Nat) : ∀ c ∈ natDigits n, c.isDigit = true :=
  (natDigitsAux_spec (n + 1) n (Nat.lt_succ_self n)).2.1

lemma digitsToNat_natDigits (n : Nat) : digitsToNat (natDigits n) = n :=
  (natDigitsAux_spec (n + 1) n (Nat.lt_succ_self n)).2.2

/-! ### takeWhile and dropWhile facts -/

lemma dropWhile_nil_all {p : Char → Bool} :
    ∀ {l : List Char}, l.dropWhile p = [] → ∀ x ∈ l, p x = true := by
  intro l
  induction l with
  | nil => intro _ x hx; cases hx
  | cons a as ih =>
    intro h x hx
    rw [List.dropWhile_cons] at h
    by_cases ha : p a = true
    · rw [if_pos ha] at h
      rcases List.mem_cons.mp hx with rfl | hx
      · exact ha
      · exact ih h x hx
    · rw [if_neg ha] at h
      cases h

lemma dropWhile_head_false {p : Char → Bool} :
    ∀ {l : List Char} {c : Char} {rest : List Char},
      l.dropWhile p = c :: rest → p c = false := by
  intro l
  induction l with
  | nil => intro c rest h; cases h
  | cons a as ih =>
    intro c rest h
    rw [List.dropWhile_cons] at h
    by_cases ha : p a = true
    · rw [if_pos ha] at h
      exact ih h
    · rw [if_neg ha] at h
      cases h
      simpa using ha

lemma dropWhile_append_of_ne_nil {p : Char → Bool} {l ys : List Char}
    (h : l.dropWhile p ≠ []) :
    (l ++ ys).dropWhile p = l.dropWhile p ++ ys := by
  rw [List.dropWhile_append, if_neg (by simpa [List.isEmpty_iff] using h)]

lemma takeWhile_append_of_ne_nil {p : Char → Bool} {l ys : List Char}
    (h : l.dropWhile p ≠ []) :
    (l ++ ys).takeWhile p = l.takeWhile p := by
  rw [List.takeWhile_append, if_neg ?_]
  intro hlen
  apply h
  have hsum : (l.takeWhile p).length + (l.dropWhile p).length = l.length := by
    conv_rhs => rw [← List.takeWhile_append_dropWhile (p := p) (l := l)]
    rw [List.length_append]
  have : (l.dropWhile p).length = 0 := by omega
  exact List.length_eq_zero.mp this

lemma dropWhile_append_all {p : Char → Bool} {l ys : List Char}
    (h : ∀ x ∈ l, p x = true) :
    (l ++ ys).dropWhile p = ys.dropWhile p := by
  induction l with
  | nil => rfl
  | cons a as ih =>
    rw [List.cons_append, List.dropWhile_cons, if_pos (h a (by simp))]
    exact ih (fun x hx => h x (by simp [hx]))

lemma takeWhile_append_all {p : Char → Bool} {l ys : List Char}
    (h : ∀ x ∈ l, p x = true) :
    (l ++ ys).takeWhile p = l ++ ys.takeWhile p := by
  induction l with
  | nil => rfl
  | cons a as ih =>
    rw [List.cons_append, List.takeWhile_cons, if_pos (h a (by simp)), ih
      (fun x hx => h x (by simp [hx])), List.cons_append]

lemma getLast?_of_suffix_ne_nil {t l : List Char} (h : t <:+ l) (hne : t ≠ []) :
    t.getLast? = l.getLast? := by
  obtain ⟨pre, rfl⟩ := h
  rw [List.getLast?_append]
  cases ht : t.getLast? with
  | none => exact absurd (List.getLast?_eq_none_iff.mp ht) hne
  | some c => rfl

/-! ### Behaviour of the regex match -/

lemma parenMatchAt_nil : parenMatchAt [] = none := rfl

lemma parenMatchAt_one (a : Char) : parenMatchAt [a] = none := rfl

lemma parenMatchAt_two (a b : Char) : parenMatchAt [a, b] = none := rfl

lemma parenMatchAt_three (a b c : Char) : parenMatchAt [a, b, c] = none := rfl

lemma parenMatchAt_four (a b c d : Char) : parenMatchAt [a, b, c, d] = none := rfl

lemma parenMatchAt_cons5 (c0 c1 c2 c3 c4 : Char) (rest : List Char) :
    parenMatchAt (c0 :: c1 :: c2 :: c3 :: c4 :: rest) =
      if c0 == '(' && isRc c1 && isEc c2 && isVc c3 && c4 == ' ' then
        if (rest.takeWhile Char.isDigit).isEmpty then none
        else
          match rest.dropWhile Char.isDigit with
          | r0 :: rest'' =>
            if r0 == ')' then some (digitsToNat (rest.takeWhile Char.isDigit), rest'')
            else none
          | [] => none
      else none := rfl

/-- A successful match on a well-formed marker tail. -/
lemma parenMatchAt_rev (ds tail : List Char) (hne : ds ≠ [])
    (hdig : ∀ c ∈ ds, c.isDigit = true) :
    parenMatchAt ('(' :: 'R' :: 'e' :: 'v' :: ' ' :: (ds ++ ')' :: tail)) =
      some (digitsToNat ds, tail) := by
  have htake : (ds ++ ')' :: tail).takeWhile Char.isDigit = ds := by
    rw [takeWhile_append_all hdig, List.takeWhile_cons, if_neg (by decide), List.append_nil]
  have hdrop : (ds ++ ')' :: tail).dropWhile Char.isDigit = ')' :: tail := by
    rw [dropWhile_append_all hdig, List.dropWhile_cons, if_neg (by decide)]
  rw [parenMatchAt_cons5, if_pos (by decide), htake, hdrop]
  rw [if_neg (by simpa [List.isEmpty_iff] using hne)]
  rfl

/-- A failed match stays failed after appending the reassembly suffix: the
suffix starts with a space, so it can never complete a partial marker. -/
lemma parenMatchAt_append_rev_none (ds t : List Char)
    (h : parenMatchAt t = none) :
    parenMatchAt (t ++ revSuffix ds) = none := by
  rcases t with _ | ⟨a, _ | ⟨b, _ | ⟨c, _ | ⟨d, _ | ⟨e, rest⟩⟩⟩⟩⟩
  · show parenMatchAt (revSuffix ds) = none
    unfold revSuffix
    rw [parenMatchAt_cons5, if_neg (by decide)]
  · show parenMatchAt (a :: revSuffix ds) = none
    unfold revSuffix
    rw [parenMatchAt_cons5]
    rw [show (('e' == ' ') : Bool) = false from rfl, Bool.and_false, if_neg (by simp)]
  · show parenMatchAt (a :: b :: revSuffix ds) = none
    unfold revSuffix
    rw [parenMatchAt_cons5]
    rw [show (('R' == ' ') : Bool) = false from rfl, Bool.and_false, if_neg (by simp)]
  · show parenMatchAt (a :: b :: c :: revSuffix ds) = none
    unfold revSuffix
    rw [parenMatchAt_cons5]
    rw [show (('(' == ' ') : Bool) = false from rfl, Bool.and_false, if_neg (by simp)]
  · show parenMatchAt (a :: b :: c :: d :: revSuffix ds) = none
    unfold revSuffix
    rw [parenMatchAt_cons5]
    by_cases hK : (a == '(' && isRc b && isEc c && isVc d && (' ' == ' ')) = true
    · rw [if_pos hK]
      have ht : List.takeWhile Char.isDigit
          ('(' :: 'R' :: 'e' :: 'v' :: ' ' :: (ds ++ [')'])) = [] := by
        rw [List.takeWhile_cons, if_neg (by decide)]
      rw [ht]
      rfl
    · rw [if_neg hK]
  · show parenMatchAt (a :: b :: c :: d :: e :: (rest ++ revSuffix ds)) = none
    rw [parenMatchAt_cons5] at h ⊢
    by_cases hK : (a == '(' && isRc b && isEc c && isVc d && (e == ' ')) = true
    · rw [if_pos hK] at h ⊢
      cases hdw : rest.dropWhile Char.isDigit with
      | nil =>
        have hall := dropWhile_nil_all hdw
        have hdw2 : (rest ++ revSuffix ds).dropWhile Char.isDigit = revSuffix ds := by
          rw [dropWhile_append_all hall]
          unfold revSuffix
          rw [List.dropWhile_cons, if_neg (by decide)]
        have htw2 : (rest ++ revSuffix ds).takeWhile Char.isDigit = rest := by
          rw [takeWhile_append_all hall]
          unfold revSuffix
          rw [List.takeWhile_cons, if_neg (by decide), List.append_nil]
        rw [hdw2, htw2]
        by_cases hre : rest.isEmpty = true
        · rw [if_pos hre]
        · rw [if_neg hre]
          rfl
      | cons z zs =>
        have hne' : rest.dropWhile Char.isDigit ≠ [] := by rw [hdw]; simp
        have hdw2 : (rest ++ revSuffix ds).dropWhile Char.isDigit =
            z :: (zs ++ revSuffix ds) := by
          rw [dropWhile_append_of_ne_nil hne', hdw, List.cons_append]
        have htw2 : (rest ++ revSuffix ds).takeWhile Char.isDigit =
            rest.takeWhile Char.isDigit := takeWhile_append_of_ne_nil hne'
        rw [hdw] at h
        rw [hdw2, htw2]
        by_cases hemp : (rest.takeWhile Char.isDigit).isEmpty = true
        · rw [if_pos hemp]
        · rw [if_neg hemp] at h ⊢
          dsimp only at h ⊢
          by_cases hz : (z == ')') = true
          · rw [if_pos hz] at h
            cases h
          · rw [if_neg hz]
    · rw [if_neg hK] at h ⊢

/-! ### Behaviour of the search -/

lemma searchRev_cons (c : Char) (cs : List Char) :
    searchRev (c :: cs) =
      match parenMatchAt (c :: cs) with
      | some (r, _) => some r
      | none => searchRev cs := rfl

lemma searchRev_eq_none_iff :
    ∀ s : List Char, (searchRev s = none ↔ ∀ t, t <:+ s → parenMatchAt t = none) := by
  intro s
  induction s with
  | nil =>
    constructor
    · intro _ t ht
      rw [List.suffix_nil.mp ht]
      rfl
    · intro _
      rfl
  | cons c cs ih =>
    rw [searchRev_cons]
    cases hp : parenMatchAt (c :: cs) with
    | some pr =>
      obtain ⟨v, rest⟩ := pr
      dsimp only
      constructor
      · intro h; cases h
      · intro h
        rw [h (c :: cs) (List.suffix_refl _)] at hp
        cases hp
    | none =>
      dsimp only
      rw [ih]
      constructor
      · intro h t ht
        rcases List.suffix_cons_iff.mp ht with rfl | ht'
        · exact hp
        · exact h t ht'
      · intro h t ht
        exact h t (List.suffix_cons_iff.mpr (Or.inr ht))

lemma searchRev_some_iff :
    ∀ (s : List Char) (r : Nat),
      searchRev s = some r ↔
        ∃ i, matchValAt s i = some r ∧ ∀ j, j < i → matchValAt s j = none := by
  intro s
  induction s with
  | nil =>
    intro r
    constructor
    · intro h; cases h
    · rintro ⟨i, hi, _⟩
      unfold matchValAt at hi
      rw [List.drop_nil] at hi
      cases hi
  | cons c cs ih =>
    intro r
    rw [searchRev_cons]
    cases hp : parenMatchAt (c :: cs) with
    | some pr =>
      obtain ⟨v, rest⟩ := pr
      dsimp only
      constructor
      · intro h
        refine ⟨0, ?_, by intro j hj; omega⟩
        unfold matchValAt
        rw [List.drop_zero, hp]
        exact h
      · rintro ⟨i, hi, hmin⟩
        cases i with
        | zero =>
          unfold matchValAt at hi
          rw [List.drop_zero, hp] at hi
          exact hi
        | succ i' =>
          have h0 := hmin 0 (Nat.succ_pos i')
          unfold matchValAt at h0
          rw [List.drop_zero, hp] at h0
          cases h0
    | none =>
      dsimp only
      rw [ih r]
      constructor
      · rintro ⟨i, hi, hmin⟩
        refine ⟨i + 1, ?_, ?_⟩
        · unfold matchValAt at hi ⊢
          rw [List.drop_succ_cons]
          exact hi
        · intro j hj
          cases j with
          | zero =>
            unfold matchValAt
            rw [List.drop_zero, hp]
            rfl
          | succ j' =>
            unfold matchValAt
            rw [List.drop_succ_cons]
            have := hmin j' (by omega)
            unfold matchValAt at this
            exact this
      · rintro ⟨i, hi, hmin⟩
        cases i with
        | zero =>
          unfold matchValAt at hi
          rw [List.drop_zero, hp] at hi
          cases hi
        | succ i' =>
          refine ⟨i', ?_, ?_⟩
          · unfold matchValAt at hi ⊢
            rw [List.drop_succ_cons] at hi
            exact hi
          · intro j hj
            have := hmin (j + 1) (by omega)
            unfold matchValAt at this ⊢
            rw [List.drop_succ_cons] at this
            exact this

lemma searchRev_append_rev (ds : List Char) (hne : ds ≠ [])
    (hdig : ∀ c ∈ ds, c.isDigit = true) :
    ∀ xs : List Char, (∀ t, t <:+ xs → parenMatchAt t = none) →
      searchRev (xs ++ revSuffix ds) = some (digitsToNat ds) := by
  have hinner : parenMatchAt ('(' :: 'R' :: 'e' :: 'v' :: ' ' :: (ds ++ [')'])) =
      some (digitsToNat ds, []) := parenMatchAt_rev ds [] hne hdig
  intro xs
  induction xs with
  | nil =>
    intro _
    rw [List.nil_append]
    show searchRev (' ' :: ('(' :: 'R' :: 'e' :: 'v' :: ' ' :: (ds ++ [')']))) = _
    rw [searchRev_cons]
    have h0 : parenMatchAt (' ' :: ('(' :: 'R' :: 'e' :: 'v' :: ' ' :: (ds ++ [')']))) =
        none := by
      rw [parenMatchAt_cons5, if_neg (by decide)]
    rw [h0]
    dsimp only
    rw [searchRev_cons, hinner]
  | cons x xs' ih =>
    intro hall
    rw [List.cons_append, searchRev_cons]
    have hx : parenMatchAt ((x :: xs') ++ revSuffix ds) = none :=
      parenMatchAt_append_rev_none ds (x :: xs') (hall _ (List.suffix_refl _))
    rw [List.cons_append] at hx
    rw [hx]
    exact ih (fun t ht => hall t (List.suffix_cons_iff.mpr (Or.inr ht)))

/-! ### Behaviour of the removal scan -/

lemma dropWhile_length_le (p : Char → Bool) (l : List Char) :
    (l.dropWhile p).length ≤ l.length := by
  conv_rhs => rw [← List.takeWhile_append_dropWhile (p := p) (l := l)]
  rw [List.length_append]
  omega

lemma parenMatchAt_some_length {s r : List Char} {v : Nat}
    (h : parenMatchAt s = some (v, r)) : r.length < s.length := by
  rcases s with _ | ⟨a, _ | ⟨b, _ | ⟨c, _ | ⟨d, _ | ⟨e, rest⟩⟩⟩⟩⟩
  · cases h
  · cases h
  · cases h
  · cases h
  · cases h
  · rw [parenMatchAt_cons5] at h
    by_cases hK : (a == '(' && isRc b && isEc c && isVc d && (e == ' ')) = true
    · rw [if_pos hK] at h
      by_cases hemp : (rest.takeWhile Char.isDigit).isEmpty = true
      · rw [if_pos hemp] at h; cases h
      · rw [if_neg hemp] at h
        cases hdw : rest.dropWhile Char.isDigit with
        | nil => rw [hdw] at h; cases h
        | cons z zs =>
          rw [hdw] at h
          dsimp only at h
          by_cases hz : (z == ')') = true
          · rw [if_pos hz] at h
            injection h with h1
            cases h1
            have hlen : (z :: r).length ≤ rest.length := by
              rw [← hdw]
              exact dropWhile_length_le _ _
            simp only [List.length_cons] at hlen ⊢
            omega
          · rw [if_neg hz] at h; cases h
    · rw [if_neg hK] at h; cases h

lemma subMatchAt_some_length {s r : List Char} (h : subMatchAt s = some r) :
    r.length < s.length := by
  unfold subMatchAt at h
  cases hp : parenMatchAt (s.dropWhile isPySpace) with
  | none => rw [hp] at h; cases h
  | some pr =>
    obtain ⟨v, r'⟩ := pr
    rw [hp] at h
    have hr : r' = r := by injection h
    have hlt := parenMatchAt_some_length hp
    have hle := dropWhile_length_le isPySpace s
    rw [← hr]
    omega

lemma subRevAllAux_nil (f : Nat) : subRevAllAux f [] = [] := by
  cases f <;> rfl

lemma subRevAllAux_succ (f : Nat) (c : Char) (cs : List Char) :
    subRevAllAux (f + 1) (c :: cs) =
      match subMatchAt (c :: cs) with
      | some rest => subRevAllAux f rest
      | none => c :: subRevAllAux f cs := rfl

lemma subRevAllAux_congr :
    ∀ (f g : Nat) (s : List Char),
      s.length ≤ f → s.length ≤ g → subRevAllAux f s = subRevAllAux g s := by
  intro f
  induction f with
  | zero =>
    intro g s hf _
    rw [List.length_eq_zero.mp (Nat.le_zero.mp hf)]
    rw [subRevAllAux_nil, subRevAllAux_nil]
  | succ f ih =>
    intro g s hf hg
    cases s with
    | nil => rw [subRevAllAux_nil, subRevAllAux_nil]
    | cons c cs =>
      cases g with
      | zero => simp at hg
      | succ g' =>
        rw [subRevAllAux_succ, subRevAllAux_succ]
        cases hsm : subMatchAt (c :: cs) with
        | some rest =>
          dsimp only
          have hlen := subMatchAt_some_length hsm
          simp only [List.length_cons] at hf hg hlen
          exact ih g' rest (by omega) (by omega)
        | none =>
          dsimp only
          simp only [List.length_cons] at hf hg
          rw [ih g' cs (by omega) (by omega)]

lemma subRevAll_nil : subRevAll [] = [] := rfl

lemma subRevAll_cons_some {c : Char} {cs rest : List Char}
    (h : subMatchAt (c :: cs) = some rest) :
    subRevAll (c :: cs) = subRevAll rest := by
  unfold subRevAll
  rw [show (c :: cs).length = cs.length + 1 from rfl, subRevAllAux_succ, h]
  dsimp only
  have hlen := subMatchAt_some_length h
  simp only [List.length_cons] at hlen
  exact subRevAllAux_congr cs.length rest.length rest (by omega) le_rfl

lemma subRevAll_cons_none {c : Char} {cs : List Char}
    (h : subMatchAt (c :: cs) = none) :
    subRevAll (c :: cs) = c :: subRevAll cs := by
  unfold subRevAll
  rw [show (c :: cs).length = cs.length + 1 from rfl, subRevAllAux_succ, h]

lemma subRevAll_append_rev (ds : List Char) (hne : ds ≠ [])
    (hdig : ∀ c ∈ ds, c.isDigit = true) :
    ∀ xs : List Char, (∀ t, t <:+ xs → parenMatchAt t = none) →
      (∀ c, xs.getLast? = some c → isPySpace c = false) →
      subRevAll (xs ++ revSuffix ds) = xs := by
  intro xs
  induction xs with
  | nil =>
    intro _ _
    rw [List.nil_append]
    have hsm : subMatchAt (revSuffix ds) = some [] := by
      unfold subMatchAt
      have hdw : (revSuffix ds).dropWhile isPySpace =
          '(' :: 'R' :: 'e' :: 'v' :: ' ' :: (ds ++ [')']) := by
        show List.dropWhile isPySpace (' ' :: _) = _
        rw [List.dropWhile_cons, if_pos (by decide), List.dropWhile_cons,
          if_neg (by decide)]
      rw [hdw, parenMatchAt_rev ds [] hne hdig]
      rfl
    show subRevAll (' ' :: ('(' :: 'R' :: 'e' :: 'v' :: ' ' :: (ds ++ [')']))) = []
    rw [subRevAll_cons_some hsm, subRevAll_nil]
  | cons x xs' ih =>
    intro hall hlast
    have hne' : (x :: xs').dropWhile isPySpace ≠ [] := by
      intro hnil
      have hallws := dropWhile_nil_all hnil
      have hgl : (x :: xs').getLast? = some ((x :: xs').getLast (by simp)) :=
        List.getLast?_eq_getLast _ _
      have hlw := hallws _ (List.getLast_mem (l := x :: xs') (by simp))
      rw [hlast _ hgl] at hlw
      cases hlw
    have hsm : subMatchAt ((x :: xs') ++ revSuffix ds) = none := by
      unfold subMatchAt
      rw [dropWhile_append_of_ne_nil hne']
      rw [parenMatchAt_append_rev_none ds _
        (hall _ (List.IsSuffix.trans (List.dropWhile_suffix _) (List.suffix_refl _)))]
      rfl
    rw [List.cons_append] at hsm ⊢
    rw [subRevAll_cons_none hsm]
    congr 1
    apply ih
    · intro t ht
      exact hall t (List.suffix_cons_iff.mpr (Or.inr ht))
    · intro c hc
      apply hlast c
      rcases xs' with _ | ⟨y, ys⟩
      · cases hc
      · rw [List.getLast?_cons_cons]
        exact hc

/-! ### Behaviour of str.strip -/

lemma lstrip_eq_self {l : List Char}
    (h : ∀ c, l.head? = some c → isPySpace c = false) : lstripL l = l := by
  unfold lstripL
  cases l with
  | nil => rfl
  | cons a as =>
    have ha := h a rfl
    rw [List.dropWhile_cons, ha]
    simp

lemma rstrip_eq_self {l : List Char}
    (h : ∀ c, l.getLast? = some c → isPySpace c = false) : rstripL l = l := by
  unfold rstripL
  cases hr : l.reverse with
  | nil =>
    have : l = [] := by simpa using congrArg List.reverse hr
    rw [this]
    rfl
  | cons a as =>
    have ha : isPySpace a = false := by
      apply h
      rw [← List.head?_reverse, hr]
      rfl
    rw [List.dropWhile_cons, ha]
    simp only [Bool.false_eq_true, if_false]
    rw [← hr, List.reverse_reverse]

lemma strip_head {y : List Char} :
    ∀ c, (stripL y).head? = some c → isPySpace c = false := by
  intro c hc
  unfold stripL lstripL at hc
  cases hd : (rstripL y).dropWhile isPySpace with
  | nil => rw [hd] at hc; cases hc
  | cons a as =>
    rw [hd] at hc
    injection hc with h'
    rw [← h']
    exact dropWhile_head_false hd

lemma strip_getLast {y : List Char} :
    ∀ c, (stripL y).getLast? = some c → isPySpace c = false := by
  intro c hc
  unfold stripL at hc
  have hsuf : lstripL (rstripL y) <:+ rstripL y := List.dropWhile_suffix _
  have hne0 : lstripL (rstripL y) ≠ [] := by
    intro h0
    rw [h0] at hc
    cases hc
  rw [getLast?_of_suffix_ne_nil hsuf hne0] at hc
  unfold rstripL at hc
  rw [← List.head?_reverse, List.reverse_reverse] at hc
  cases hd : y.reverse.dropWhile isPySpace with
  | nil => rw [hd] at hc; cases hc
  | cons a as =>
    rw [hd] at hc
    injection hc with h'
    rw [← h']
    exact dropWhile_head_false hd

lemma strip_eq_self_of (xs : List Char)
    (hh : ∀ c, xs.head? = some c → isPySpace c = false)
    (hl : ∀ c, xs.getLast? = some c → isPySpace c = false) : stripL xs = xs := by
  unfold stripL
  rw [rstrip_eq_self hl, lstrip_eq_self hh]

lemma extractRevL_snd (l : List Char) : (extractRevL l).2 = searchRev l := by
  unfold extractRevL
  cases h : searchRev l <;> rfl

/-! ## Claims -/

/-- C2 (counterexample): on a document that is not well-formed structured
markup, `parse_dat_file` does not propagate the ParseError: the `except`
branch returns the empty name set to the caller, contradicting the claim
that no empty or partial name set is returned. -/
theorem claim_C2_counterexample :
    parse_dat_file DatParseResult.parseError = [] := rfl

/-- C2 (amended): on a malformed catalog document `parse_dat_file` catches
the ParseError and returns an empty name set; the run is then aborted by the
caller, whose emptiness guard refuses to proceed with the comparison. -/
theorem claim_C2 :
    parse_dat_file DatParseResult.parseError = [] ∧
    mainProceedsWithDat (parse_dat_file DatParseResult.parseError) = false :=
  ⟨rfl, rfl⟩

/-- C3 (counterexample): the file with stem `X` lives only in a platform-icon
directory and was never contributed by a 2D-box, 3D-box or disc folder, yet
the sync check reports no orphan, because the inventory scan includes the
icon directories and therefore contains the stem. -/
theorem claim_C3_counterexample :
    ("psp-icon0-generated", "X") ∈ pspFiles fsIconOnly ∧
    ("X" ∉ fsIconOnly.box2d ++ fsIconOnly.box2dLq ++ fsIconOnly.box2dMissing ++
        fsIconOnly.box3d ++ fsIconOnly.box3dLq ++ fsIconOnly.box3dMissing ++
        fsIconOnly.disc ++ fsIconOnly.discLq ++ fsIconOnly.discMissing) ∧
    check_psp_icon0_sync fsIconOnly (collect_collection_filenames fsIconOnly) = [] := by
  refine ⟨by decide, by decide, by decide⟩

/-- C3 (amended): the orphan check reports exactly the platform-icon files
whose stem is not in the inventory set; since the inventory also scans the
icon directories, these are exactly the icon files whose stem contains
`" alt"` (which the inventory excludes). -/
theorem claim_C3 : ∀ fs : FS,
    check_psp_icon0_sync fs (collect_collection_filenames fs) =
      (pspFiles fs).filter (fun f => containsAlt f.2) := by
  intro fs
  unfold check_psp_icon0_sync
  apply List.filter_congr
  intro f hf
  by_cases halt : containsAlt f.2 = true
  · have hnm : f.2 ∉ collect_collection_filenames fs := by
      rw [mem_collect_iff]; simp [halt]
    have hc : (collect_collection_filenames fs).contains f.2 = false := by
      rw [← Bool.not_eq_true, contains_iff_mem]; exact hnm
    rw [hc, halt]; rfl
  · have halt' : containsAlt f.2 = false := by simpa using halt
    have hmem : f.2 ∈ collect_collection_filenames fs := by
      rw [mem_collect_iff]
      refine ⟨?_, halt'⟩
      unfold pspFiles at hf
      rcases List.mem_append.mp hf with h | h
      · rcases List.mem_map.mp h with ⟨s, hs, rfl⟩
        exact ⟨fs.pspGenerated, by simp [allDirs], hs⟩
      · rcases List.mem_map.mp h with ⟨s, hs, rfl⟩
        exact ⟨fs.pspBespoke, by simp [allDirs], hs⟩
    have hc : (collect_collection_filenames fs).contains f.2 = true :=
      (contains_iff_mem _ _).mpr hmem
    rw [hc, halt']; rfl

/-- C4: the revision index maps a base title to `some` of the maximum
revision observed among the catalog entries sharing that base (entries with
no marker observing revision 0), and to `none` when no entry has that base;
in particular on the catalog {Game A, Game A (Rev 1), Game A (Rev 2)} the
index is exactly {Game A : 2}. -/
theorem claim_C4 :
    (∀ (games : List (Option String)) (b : String),
      parse_dat_file_for_revisions (DatParseResult.ok games) b =
        if (catalogNames games).any (fun n => baseOf n == b)
        then some (maxRevOf b (catalogNames games))
        else none) ∧
    (∀ b : String,
      parse_dat_file_for_revisions
          (DatParseResult.ok [some "Game A", some "Game A (Rev 1)", some "Game A (Rev 2)"]) b =
        if b = "Game A" then some 2 else none) := by
  have hgen : ∀ (games : List (Option String)) (b : String),
      parse_dat_file_for_revisions (DatParseResult.ok games) b =
        if (catalogNames games).any (fun n => baseOf n == b)
        then some (maxRevOf b (catalogNames games))
        else none := by
    intro games b
    show ((catalogNames games).foldl revStep (fun _ => none)) b = _
    rw [revFold_apply]
    simp
  refine ⟨hgen, ?_⟩
  intro b
  rw [hgen]
  by_cases hb : b = "Game A"
  · subst hb; decide
  · have h1 : catalogNames [some "Game A", some "Game A (Rev 1)", some "Game A (Rev 2)"] =
        ["Game A", "Game A (Rev 1)", "Game A (Rev 2)"] := by decide
    rw [h1]
    have e1 : baseOf "Game A" = "Game A" := by decide
    have e2 : baseOf "Game A (Rev 1)" = "Game A" := by decide
    have e3 : baseOf "Game A (Rev 2)" = "Game A" := by decide
    have hany : (["Game A", "Game A (Rev 1)", "Game A (Rev 2)"].any
        (fun n => baseOf n == b)) = false := by
      simp [List.any_cons, e1, e2, e3, Ne.symm hb]
    rw [hany]
    simp [hb]

/-- C5: when the max revision is 0 the lookup returns the base exactly when
the base itself is a catalog name and is absent otherwise; when it is
positive it returns exactly `"{base} (Rev {max_rev})"` exactly when that
string is a catalog name and is absent otherwise; a non-absent result is
always a member of the catalog name set. -/
theorem claim_C5 : ∀ (base : String) (maxRev : Nat) (names : List String),
    (maxRev = 0 →
      (get_latest_revision_name base maxRev names = some base ↔ base ∈ names) ∧
      (get_latest_revision_name base maxRev names = none ↔ base ∉ names)) ∧
    (0 < maxRev →
      (get_latest_revision_name base maxRev names =
          some (base ++ " (Rev " ++ natStr maxRev ++ ")") ↔
        (base ++ " (Rev " ++ natStr maxRev ++ ")") ∈ names) ∧
      (get_latest_revision_name base maxRev names = none ↔
        (base ++ " (Rev " ++ natStr maxRev ++ ")") ∉ names)) ∧
    (∀ r, get_latest_revision_name base maxRev names = some r → r ∈ names) := by
  intro base maxRev names
  rw [get_latest_cases]
  refine ⟨?_, ?_, ?_⟩
  · intro h0
    rw [if_pos h0]
    exact contains_test names base
  · intro hpos
    rw [if_neg (Nat.pos_iff_ne_zero.mp hpos)]
    exact contains_test names (base ++ " (Rev " ++ natStr maxRev ++ ")")
  · intro r hr
    by_cases hc : names.contains
        (if maxRev = 0 then base else base ++ " (Rev " ++ natStr maxRev ++ ")") = true
    · rw [if_pos hc] at hr
      rw [← Option.some_inj.mp hr]
      exact (contains_iff_mem _ _).mp hc
    · rw [if_neg hc] at hr
      cases hr

/-- C5 (witness): the lookup at base "Game A", max revision 2, catalog
{"Game A (Rev 2)"} returns the exact revision-2 name. -/
theorem claim_C5_witness :
    get_latest_revision_name "Game A" 2 ["Game A (Rev 2)"] =
      some ("Game A" ++ " (Rev " ++ natStr 2 ++ ")") :=
  (((claim_C5 "Game A" 2 ["Game A (Rev 2)"]).2.1 (by decide)).1).mpr (by decide)

/-- C7: the reconciliation difference sets are pairwise disjoint and cover
exactly the union of the catalog and inventory name sets. -/
theorem claim_C7 : ∀ (dat coll : Finset String),
    Disjoint (catalog_only dat coll) (inventory_only dat coll) ∧
    Disjoint (catalog_only dat coll) (in_both dat coll) ∧
    Disjoint (inventory_only dat coll) (in_both dat coll) ∧
    catalog_only dat coll ∪ in_both dat coll ∪ inventory_only dat coll = dat ∪ coll := by
  intro dat coll
  refine ⟨?_, ?_, ?_, ?_⟩
  · rw [Finset.disjoint_left]
    intro a ha hb
    simp only [catalog_only, Finset.mem_sdiff] at ha
    simp only [inventory_only, Finset.mem_sdiff] at hb
    exact ha.2 hb.1
  · rw [Finset.disjoint_left]
    intro a ha hb
    simp only [catalog_only, Finset.mem_sdiff] at ha
    simp only [in_both, Finset.mem_inter] at hb
    exact ha.2 hb.1
  · rw [Finset.disjoint_left]
    intro a ha hb
    simp only [inventory_only, Finset.mem_sdiff] at ha
    simp only [in_both, Finset.mem_inter] at hb
    exact ha.2 hb.2
  · ext a
    simp only [catalog_only, inventory_only, in_both, Finset.mem_union,
      Finset.mem_sdiff, Finset.mem_inter]
    tauto

/-- C8: a name whose stem contains the substring " alt" never appears in the
inventory set produced by the scan, wherever it is held. -/
theorem claim_C8 : ∀ (fs : FS) (s : String),
    containsAlt s = true → s ∉ collect_collection_filenames fs := by
  intro fs s h hmem
  rw [mem_collect_iff] at hmem
  rw [hmem.2] at h
  exact Bool.false_ne_true h

/-- C8 (witness): the alt stem placed in the 2dbox directory is not
collected. -/
theorem claim_C8_witness : "Game alt" ∉ collect_collection_filenames fsAltExample :=
  claim_C8 fsAltExample "Game alt" (by decide)

/-- C9: a removed-entry line updates the removal dictionary at the stripped
title with the tag given by the state machine rule — superseded-by the
remembered parent in the Clone section, the section reason when a section is
set, and the unspecified tag otherwise; on the five-line example report the
parser yields exactly the two expected entries. -/
theorem claim_C9 :
    (∀ (st : FilterState) (raw : String),
      sectionHeader (pyRstrip raw) = none →
      isSkippedLine (pyRstrip raw) = false →
      strStartsWith (pyLstrip (pyRstrip raw)) "+ " = false →
      strStartsWith (pyLstrip (pyRstrip raw)) "- " = true →
      (parseLine st raw).removed =
        dictSet st.removed (pyStrip (strDrop (pyLstrip (pyRstrip raw)) 2))
          (removalTag st.currentSection st.currentParent)) ∧
    parse_filter_report
        ["TITLES WITH CLONES", "+ Game A (USA)", "- Game A (Europe)",
         "AUDIO REMOVES", "- Game B"] =
      [("Game A (Europe)", "Superior version: 'Game A (USA)'"), ("Game B", "Audio")] := by
  constructor
  · intro st raw h1 h2 h3 h4
    unfold parseLine removalTag
    dsimp only
    rw [h1]
    simp [h2, h3, h4]
  · decide

/-- C9 (witness): a removed-entry line in the Clone state with a remembered
parent is tagged as superseded by that parent. -/
theorem claim_C9_witness :
    (parseLine ⟨some "Clone", some "Game A (USA)", []⟩ "- Game A (Europe)").removed =
      dictSet [] (pyStrip (strDrop (pyLstrip (pyRstrip "- Game A (Europe)")) 2))
        (removalTag (some "Clone") (some "Game A (USA)")) :=
  claim_C9.1 ⟨some "Clone", some "Game A (USA)", []⟩ "- Game A (Europe)"
    (by decide) (by decide) (by decide) (by decide)

/-- C10: for every inventory name, the categories recorded as genuinely
missing and the categories recorded as placeholder-only are disjoint: each
(name, category) pair is classified into exactly one bucket. -/
theorem claim_C10 : ∀ (fs : FS) (names : List String) (n : String)
    (l₁ l₂ : List String) (c : String),
    (check_collection_completeness fs names).1 n = some l₁ →
    (check_collection_completeness fs names).2 n = some l₂ →
    c ∈ l₁ → c ∉ l₂ := by
  intro fs names n l₁ l₂ c h1 h2 hc1 hc2
  unfold check_collection_completeness at h1 h2
  obtain ⟨k1, k2⟩ := completeness_fold_lookup fs names (fun _ => none, fun _ => none)
    (fun _ _ h => Option.noConfusion h) (fun _ _ h => Option.noConfusion h)
  rw [k1 n l₁ h1] at hc1
  rw [k2 n l₂ h2] at hc2
  unfold checkGameCats at hc1 hc2
  have p1 := (List.mem_filter.mp hc1).2
  have p2 := (List.mem_filter.mp hc2).2
  rw [Bool.not_eq_true'] at p1
  rw [p1] at p2
  simp at p2

/-- C10 (witness): for the stem `G` of `fsMissingOnly`, the 3dbox category is
recorded as genuinely missing and hence not as placeholder-only. -/
theorem claim_C10_witness : "3dbox" ∉ (["2dbox"] : List String) :=
  claim_C10 fsMissingOnly ["G"] "G" ["3dbox", "disc", "psp-icon0"] ["2dbox"] "3dbox"
    (by decide) (by decide) (by decide)

/-- C1 (counterexample): on a name carrying two markers, `extract_revision`
takes the revision of the first marker (not a trailing one) and removes both
parentheticals (not exactly one): the result is neither what removing only
the matched first marker would give, nor what a trailing match would give. -/
theorem claim_C1_counterexample :
    extract_revision "Game (Rev 1) (Rev 2)" = ("Game", some 1) ∧
    (("Game", some 1) : String × Option Nat) ≠ ("Game (Rev 2)", some 1) ∧
    (("Game", some 1) : String × Option Nat) ≠ ("Game (Rev 1)", some 2) := by
  refine ⟨by decide, by decide, by decide⟩

/-- C1 (amended): `extract_revision` returns the revision of the first
marker occurring anywhere in the name — the match at the least position,
with every earlier position failing; when a marker exists, the base is the
name with every non-overlapping `\s*\(Rev \d+\)` occurrence removed in one
left-to-right pass, then trimmed; when none exists it returns the trimmed
name and no revision. -/
theorem claim_C1 : ∀ s : String,
    (∀ r : Nat, ((extract_revision s).2 = some r ↔
      ∃ i, matchValAt s.data i = some r ∧ ∀ j, j < i → matchValAt s.data j = none)) ∧
    ((extract_revision s).2 = none →
      extract_revision s = (String.mk (stripL s.data), none)) ∧
    ((extract_revision s).2 ≠ none →
      (extract_revision s).1 = String.mk (stripL (subRevAll s.data))) := by
  intro s
  have hsnd : (extract_revision s).2 = searchRev s.data := extractRevL_snd s.data
  refine ⟨?_, ?_, ?_⟩
  · intro r
    rw [hsnd]
    exact searchRev_some_iff s.data r
  · intro h
    rw [hsnd] at h
    show (String.mk (extractRevL s.data).1, (extractRevL s.data).2) = _
    unfold extractRevL
    rw [h]
  · intro h
    rw [hsnd] at h
    cases hs : searchRev s.data with
    | none => exact absurd hs h
    | some r =>
      show String.mk (extractRevL s.data).1 = _
      unfold extractRevL
      rw [hs]

/-- C1 (witness): on the name `"A (Rev 7) B"` a marker exists, and the base
is the stripped removal result. -/
theorem claim_C1_witness :
    (extract_revision "A (Rev 7) B").1 = String.mk (stripL (subRevAll "A (Rev 7) B".data)) :=
  (claim_C1 "A (Rev 7) B").2.2 (by decide)

/-- C6 (counterexample): removing all markers can create a fresh marker, and
then the reassembled name does not round-trip: `extract_revision` on
`"(Rev(Rev 1) 2)"` gives base `"(Rev 2)"` and revision 1, but re-parsing
`"(Rev 2) (Rev 1)"` gives `("", 2)`. -/
theorem claim_C6_counterexample :
    extract_revision "(Rev(Rev 1) 2)" = ("(Rev 2)", some 1) ∧
    extract_revision ("(Rev 2)" ++ " (Rev " ++ natStr 1 ++ ")") = ("", some 2) ∧
    (("", some 2) : String × Option Nat) ≠ ("(Rev 2)", some 1) := by
  refine ⟨by decide, by decide, by decide⟩

/-- C6 (amended): the round-trip holds for every catalog name whose extracted
base contains no residual revision marker: if `extract_revision` yields
`(base, rev)` with `rev > 0` and `base` itself parses with no revision, then
re-parsing `"{base} (Rev {rev})"` yields exactly `(base, rev)`. -/
theorem claim_C6 : ∀ (name base : String) (rev : Nat),
    extract_revision name = (base, some rev) → 0 < rev →
    (extract_revision base).2 = none →
    extract_revision (base ++ " (Rev " ++ natStr rev ++ ")") = (base, some rev) := by
  intro name base rev h1 _ h3
  have hbase : base = String.mk (stripL (subRevAll name.data)) := by
    have h2 : (extract_revision name).2 = some rev := by rw [h1]
    have hs : searchRev name.data = some rev := by
      rw [← extractRevL_snd]
      exact h2
    have hfst : (extract_revision name).1 = base := by rw [h1]
    rw [← hfst]
    show String.mk (extractRevL name.data).1 = _
    unfold extractRevL
    rw [hs]
  have hdata : base.data = stripL (subRevAll name.data) := by rw [hbase]
  have hnone : searchRev base.data = none := by
    rw [← extractRevL_snd]
    exact h3
  have hall : ∀ t, t <:+ base.data → parenMatchAt t = none :=
    (searchRev_eq_none_iff base.data).mp hnone
  have hlast : ∀ c, base.data.getLast? = some c → isPySpace c = false := by
    rw [hdata]
    exact fun c hc => strip_getLast c hc
  have hhead : ∀ c, base.data.head? = some c → isPySpace c = false := by
    rw [hdata]
    exact fun c hc => strip_head c hc
  have hds : (base ++ " (Rev " ++ natStr rev ++ ")").data =
      base.data ++ revSuffix (natDigits rev) := by
    rw [String.data_append, String.data_append, String.data_append]
    rw [List.append_assoc, List.append_assoc]
    rfl
  have hsearch : searchRev (base.data ++ revSuffix (natDigits rev)) = some rev := by
    rw [searchRev_append_rev (natDigits rev) (natDigits_ne_nil rev)
      (natDigits_digits rev) base.data hall, digitsToNat_natDigits]
  have hsub : subRevAll (base.data ++ revSuffix (natDigits rev)) = base.data :=
    subRevAll_append_rev (natDigits rev) (natDigits_ne_nil rev)
      (natDigits_digits rev) base.data hall hlast
  show (String.mk (extractRevL (base ++ " (Rev " ++ natStr rev ++ ")").data).1,
      (extractRevL (base ++ " (Rev " ++ natStr rev ++ ")").data).2) = (base, some rev)
  rw [hds]
  unfold extractRevL
  rw [hsearch]
  dsimp only
  rw [hsub, strip_eq_self_of base.data hhead hlast]

/-- C6 (witness): the round-trip at the concrete name `"Game A (Rev 1)"`. -/
theorem claim_C6_witness :
    extract_revision ("Game A" ++ " (Rev " ++ natStr 1 ++ ")") = ("Game A", some 1) :=
  claim_C6 "Game A (Rev 1)" "Game A" 1 (by decide) (by decide) (by decide)

end PSX
